import Mathlib

/-!
Shallow embedding of the worker-side orchestration layer of
`src/client/workerclient.ts` (class `WorkerClient`): the readiness tracker
(`__handleGuilds`), the pending-call table (`promises`), the shard registry
(`shards`), the manager-message router (`handleManagerMessages`) and the
packet-dispatch path (`onPacket`).

JavaScript `Map` objects are embedded as association lists with
lookup / set / erase; `Set<string>` as a duplicate-free insertion-ordered
list.  Side effects (posted messages, log lines, event dispatch, cache
application) are made explicit as an output list of `Effect`s returned by
every step function.
-/

/-! ## Association-list maps (JavaScript `Map`) -/

/-- Lookup in an association list, first matching key wins (JS `Map.get`). -/
def lookupKey {κ β : Type} [DecidableEq κ] : List (κ × β) → κ → Option β
  | [], _ => none
  | p :: rest, k => if p.1 = k then some p.2 else lookupKey rest k

/-- `Map.set`: replace the entry in place when the key is present, otherwise
append a fresh entry at the end (JS insertion order). -/
def setKey {κ β : Type} [DecidableEq κ] : List (κ × β) → κ → β → List (κ × β)
  | [], k, v => [(k, v)]
  | p :: rest, k, v => if p.1 = k then (k, v) :: rest else p :: setKey rest k v

/-- `Map.delete`: remove the entry for a key. -/
def eraseKey {κ β : Type} [DecidableEq κ] : List (κ × β) → κ → List (κ × β)
  | [], _ => []
  | p :: rest, k => if p.1 = k then eraseKey rest k else p :: eraseKey rest k

/-! ## JavaScript `Set<string>` -/

/-- `Set.add`: no-op when the element is already present, else append. -/
def addSet (s : List String) (x : String) : List String :=
  if x ∈ s then s else s ++ [x]

/-- `Set.delete`: remove the element. -/
def delSet (s : List String) (x : String) : List String :=
  s.filter (fun y => y ≠ x)

/-! ## Data model -/

/-- JavaScript truthiness of an optional string: `undefined` and the empty
string are falsy (used for `shard.data.session_id`). -/
def truthyStr : Option String → Bool
  | none => false
  | some s => s ≠ ""

/-- The slice of `Shard#data` the orchestration layer reads. -/
structure ShardData where
  session_id : Option String := none
deriving DecidableEq

/-- The face of the out-of-scope `Shard` connection object that
`workerclient.ts` reads or writes: `id`, `latency`, `isOpen`, `resumable`,
`data.session_id`, and the `options.presence` slot overwritten by
ALLOW_CONNECT.  Latencies are JS numbers, embedded as rationals. -/
structure Shard where
  id : Nat
  latency : ℚ := 0
  isOpen : Bool := false
  resumable : Bool := false
  data : ShardData := {}
  presence : Option String := none
deriving DecidableEq

/-- A freshly constructed `new Shard(id, …)` as observed by this layer:
quiescent connection state, no session yet. -/
def mkShard (id : Nat) : Shard := { id := id }

/-- One entry of the pending-call table `promises`; the resolver callback is
abstracted away, the timeout closure's message and the `setTimeout` bound
(milliseconds) are kept. -/
structure PendingCall where
  message : String
  timeoutMs : Nat
deriving DecidableEq

/-- An opaque JS value travelling through eval requests and responses. -/
inductive Value
  | str (s : String)
  | errorV (message : String)
  | undef
deriving DecidableEq

/-- How a settled promise of the pending-call table ended. -/
inductive POutcome
  | resolved (v : Value)
  | rejected (message : String)
deriving DecidableEq

/-- The snapshot built by `generateShardInfo`. -/
structure WorkerShardInfo where
  isOpen : Bool
  shardId : Nat
  latency : ℚ
  resumable : Bool
deriving DecidableEq

/-- Messages the worker posts to the manager (`postMessage` payloads). -/
inductive OutMsg
  | workerReady (workerId : Nat)
  | workerShardsConnected (workerId : Nat)
  | resultPayload (nonce : String) (workerId : Nat)
  | connectQueue (shardId : Nat) (workerId : Nat)
  | shardInfoMsg (info : WorkerShardInfo) (nonce : String) (workerId : Nat)
  | workerInfo (shards : List WorkerShardInfo) (workerId : Nat) (nonce : String)
  | evalResponse (response : Value) (workerId : Nat) (nonce : String)
deriving DecidableEq

/-- Observable side effects of one step, in program order. -/
inductive Effect
  | post (m : OutMsg)
  | logFatal (msg : String)
  | runEvent (name : String)
  | executeEvent (name : String)
  | cachePacket
  | shardSend (shardId : Nat)
  | shardConnect (shardId : Nat)
  | settle (nonce : String) (o : POutcome)
deriving DecidableEq

/-- The mutable state of a `WorkerClient` relevant to the claims, together
with the static `workerData` configuration (intents bitmask, worker id,
statically assigned shard ids). -/
structure WorkerState where
  handleGuilds : Option (List String) := some []
  shards : List (Nat × Shard) := []
  promises : List (String × PendingCall) := []
  botId : Option String := none
  applicationId : Option String := none
  intents : Nat := 0
  workerId : Nat := 0
  assignedShards : List Nat := []
deriving DecidableEq

/-- `GatewayIntentBits.Guilds` (bit 0 of the intents bitmask). -/
def GatewayIntentBitsGuilds : Nat := 1

/-- `(workerData.intents & GatewayIntentBits.Guilds) === GatewayIntentBits.Guilds`. -/
def guildsIntent (intents : Nat) : Bool :=
  intents &&& GatewayIntentBitsGuilds = GatewayIntentBitsGuilds

/-- `[...this.shards.values()].every(shard => shard.data.session_id)`. -/
def allShardsLive (st : WorkerState) : Bool :=
  st.shards.all (fun p => truthyStr p.2.data.session_id)

/-! ## Packet dispatch (`onPacket`) -/

/-- The gateway dispatch payloads `onPacket` distinguishes.  The
member/presence dedup filters are external collaborators; their verdict is
carried on the packet. -/
inductive Packet
  | ready (guilds : List String) (userId : String) (appId : String)
  | guildCreate (gid : String)
  | guildDelete (gid : String)
  | guildMemberUpdate (pass : Bool)
  | presenceUpdate (pass : Bool)
  | interactionCreate
  | messageCreate
  | other (name : String)
deriving DecidableEq

/-- The `GUILD_CREATE` / `GUILD_DELETE` branch of `onPacket` (lines 372-390):
readiness bookkeeping when the guild id is pending, otherwise a normal event
dispatch. -/
def handleGuildPacket (st : WorkerState) (gid : String) (ename : String) :
    WorkerState × List Effect :=
  match st.handleGuilds with
  | some hg =>
    if gid ∈ hg then
      let hg2 := delSet hg gid
      if hg2.isEmpty && allShardsLive st then
        ({ st with handleGuilds := none },
          [Effect.cachePacket, Effect.post (OutMsg.workerReady st.workerId),
            Effect.runEvent "WORKER_READY"])
      else
        ({ st with handleGuilds := if hg2.isEmpty then none else some hg2 },
          [Effect.cachePacket])
    else (st, [Effect.executeEvent ename])
  | none => (st, [Effect.executeEvent ename])

/-- The `READY` branch of `onPacket` (lines 405-439): (re)create the
readiness set from the session's guild list, record identity, dispatch the
event, report the shards-connected milestone, and when no settling window is
required announce readiness immediately and discard the set. -/
def handleReadyPacket (st : WorkerState) (guilds : List String)
    (userId appId : String) : WorkerState × List Effect :=
  let hg := guilds.foldl addSet (st.handleGuilds.getD [])
  let st1 := { st with handleGuilds := some hg, botId := some userId,
                       applicationId := some appId }
  let effs1 := [Effect.executeEvent "READY"]
  let effs2 :=
    if allShardsLive st1 then
      [Effect.post (OutMsg.workerShardsConnected st1.workerId),
        Effect.runEvent "WORKER_SHARDS_CONNECTED"]
    else []
  if !(!hg.isEmpty && guildsIntent st1.intents) then
    let effs3 :=
      if allShardsLive st1 then
        [Effect.post (OutMsg.workerReady st1.workerId),
          Effect.runEvent "WORKER_READY"]
      else []
    ({ st1 with handleGuilds := none }, effs1 ++ effs2 ++ effs3)
  else (st1, effs1 ++ effs2)

/-- `WorkerClient.onPacket`: raw/collector fan-out first (fire-and-forget),
then dispatch by event name. -/
def onPacket (st : WorkerState) (p : Packet) : WorkerState × List Effect :=
  let raw := [Effect.runEvent "RAW"]
  match p with
  | Packet.guildCreate g =>
    let r := handleGuildPacket st g "GUILD_CREATE"
    (r.1, raw ++ r.2)
  | Packet.guildDelete g =>
    let r := handleGuildPacket st g "GUILD_DELETE"
    (r.1, raw ++ r.2)
  | Packet.ready gs u a =>
    let r := handleReadyPacket st gs u a
    (r.1, raw ++ r.2)
  | Packet.guildMemberUpdate pass =>
    (st, raw ++ if pass then [Effect.executeEvent "GUILD_MEMBER_UPDATE"] else [])
  | Packet.presenceUpdate pass =>
    (st, raw ++ if pass then [Effect.executeEvent "PRESENCE_UPDATE"] else [])
  | Packet.interactionCreate =>
    (st, raw ++ [Effect.executeEvent "INTERACTION_CREATE"])
  | Packet.messageCreate =>
    (st, raw ++ [Effect.executeEvent "MESSAGE_CREATE"])
  | Packet.other n => (st, raw ++ [Effect.executeEvent n])

/-! ## Pending-call table -/

/-- `generateSendPromise` (lines 327-335): register the resolver together
with a 60 000 ms timer whose closure deletes the entry and rejects with the
caller-supplied message. -/
def generateSendPromise (t : List (String × PendingCall)) (nonce : String)
    (message : String) : List (String × PendingCall) :=
  setKey t nonce { message := message, timeoutMs := 60000 }

/-- `generateSendPromise` called without the optional argument: the message
defaults to `"Timeout"`. -/
def generateSendPromiseDefault (t : List (String × PendingCall))
    (nonce : String) : List (String × PendingCall) :=
  generateSendPromise t nonce "Timeout"

/-- The `setTimeout` closure firing for a nonce: delete the entry and reject
with the stored message.  The timer is live exactly while the entry is in
the table (the only `clearTimeout` accompanies the entry's deletion), so a
fire against an absent entry is impossible and modelled as a no-op. -/
def fireTimeout (t : List (String × PendingCall)) (nonce : String) :
    List (String × PendingCall) × Option POutcome :=
  match lookupKey t nonce with
  | some pc => (eraseKey t nonce, some (POutcome.rejected pc.message))
  | none => (t, none)

/-- `uuid.split('-')[0]`. -/
def firstUuidSegment (s : String) : String :=
  (s.splitOn "-").headD ""

/-- The candidate token `generateNonce` derives from one `randomUUID()`
draw. -/
def nonceCandidate (large : Bool) (r : String) : String :=
  if large then r else firstUuidSegment r

/-- `generateNonce` (lines 320-325): draw a random uuid, shorten it unless
`large`, and regenerate while the candidate is already a key of `promises`.
The stream of `randomUUID()` results is passed in explicitly; `none` means
the finite stream ran out before a fresh candidate appeared. -/
def generateNonce (large : Bool) (rands : List String)
    (t : List (String × PendingCall)) : Option String :=
  match rands with
  | [] => none
  | r :: rest =>
    if (lookupKey t (nonceCandidate large r)).isSome then generateNonce large rest t
    else some (nonceCandidate large r)

/-! ## Manager-message router (`handleManagerMessages`) -/

/-- `generateShardInfo` (lines 450-457). -/
def generateShardInfo (shard : Shard) : WorkerShardInfo :=
  { isOpen := shard.isOpen, shardId := shard.id, latency := shard.latency,
    resumable := shard.resumable }

/-- An `EXECUTE_EVAL` callable's behaviour: it either returns a value or
throws one. -/
inductive EvalOutcome
  | ok (v : Value)
  | threw (e : Value)
deriving DecidableEq

/-- `try { result = await eval(…) } catch (e) { result = e }`: the thrown
error is captured as the result value. -/
def capturedResult : EvalOutcome → Value
  | EvalOutcome.ok v => v
  | EvalOutcome.threw e => e

/-- Manager→worker instructions (`ManagerMessages`), tags as in the source.
`CACHE_RESULT` and `API_RESPONSE` act on tables owned by the cache adapter
and the rest handler, outside this state, and are kept as no-op carriers. -/
inductive ManagerMsg
  | sendPayload (shardId : Nat) (nonce : String)
  | allowConnect (shardId : Nat) (presence : Option String)
  | spawnShards
  | shardInfoQ (shardId : Nat) (nonce : String)
  | workerInfoQ (nonce : String)
  | botReady
  | executeEval (outcome : EvalOutcome) (nonce : String)
  | evalResponseMsg (nonce : String) (response : Value)
  | cacheResult (nonce : String)
  | apiResponse (nonce : String)
deriving DecidableEq

/-- The `SPAWN_SHARDS` loop body for one assigned id: create the `Shard`
when absent, then post a connect-queue request in every case. -/
def spawnStep (wid : Nat) (acc : List (Nat × Shard) × List Effect) (id : Nat) :
    List (Nat × Shard) × List Effect :=
  let sh := if (lookupKey acc.1 id).isSome then acc.1 else setKey acc.1 id (mkShard id)
  (sh, acc.2 ++ [Effect.post (OutMsg.connectQueue id wid)])

/-- `WorkerClient.handleManagerMessages` (lines 170-318) on the modelled
state. -/
def handleManagerMessages (st : WorkerState) (m : ManagerMsg) :
    WorkerState × List Effect :=
  match m with
  | ManagerMsg.sendPayload shardId nonce =>
    match lookupKey st.shards shardId with
    | none => (st, [Effect.logFatal "Worker trying send payload by non-existent shard"])
    | some _ =>
      (st, [Effect.shardSend shardId,
            Effect.post (OutMsg.resultPayload nonce st.workerId)])
  | ManagerMsg.allowConnect shardId presence =>
    match lookupKey st.shards shardId with
    | none => (st, [Effect.logFatal "Worker trying connect non-existent shard"])
    | some sh =>
      ({ st with shards := setKey st.shards shardId { sh with presence := presence } },
        [Effect.shardConnect shardId])
  | ManagerMsg.spawnShards =>
    let r := st.assignedShards.foldl (spawnStep st.workerId) (st.shards, [])
    ({ st with shards := r.1 }, r.2)
  | ManagerMsg.shardInfoQ shardId nonce =>
    match lookupKey st.shards shardId with
    | none => (st, [Effect.logFatal "Worker trying get non-existent shard"])
    | some sh =>
      (st, [Effect.post (OutMsg.shardInfoMsg (generateShardInfo sh) nonce st.workerId)])
  | ManagerMsg.workerInfoQ nonce =>
    (st, [Effect.post (OutMsg.workerInfo
            (st.shards.map (fun p => generateShardInfo p.2)) st.workerId nonce)])
  | ManagerMsg.botReady => (st, [Effect.runEvent "BOT_READY"])
  | ManagerMsg.executeEval outcome nonce =>
    (st, [Effect.post (OutMsg.evalResponse (capturedResult outcome) st.workerId nonce)])
  | ManagerMsg.evalResponseMsg nonce response =>
    match lookupKey st.promises nonce with
    | none => (st, [])
    | some _ =>
      ({ st with promises := eraseKey st.promises nonce },
        [Effect.settle nonce (POutcome.resolved response)])
  | ManagerMsg.cacheResult _ => (st, [])
  | ManagerMsg.apiResponse _ => (st, [])

/-- Process manager instructions one at a time, in arrival order. -/
def runMsgs (st : WorkerState) : List ManagerMsg → WorkerState × List Effect
  | [] => (st, [])
  | m :: rest =>
    let r := handleManagerMessages st m
    let r2 := runMsgs r.1 rest
    (r2.1, r.2 ++ r2.2)

/-! ## Traces of packets and environment shard updates -/

/-- One trace action: a gateway packet dispatched through `onPacket`, or the
environment (the out-of-scope connection objects) updating the shard
registry's connection state between packets. -/
inductive WAction
  | pkt (p : Packet)
  | envShards (sh : List (Nat × Shard))
deriving DecidableEq

/-- Execute one trace action. -/
def stepAction (st : WorkerState) : WAction → WorkerState × List Effect
  | WAction.pkt p => onPacket st p
  | WAction.envShards sh => ({ st with shards := sh }, [])

/-- Execute a trace of actions, concatenating effects in order. -/
def runActions (st : WorkerState) : List WAction → WorkerState × List Effect
  | [] => (st, [])
  | a :: rest =>
    let r := stepAction st a
    let r2 := runActions r.1 rest
    (r2.1, r.2 ++ r2.2)

/-- Actions allowed inside one settling window: guild-create/delete packets
and environment shard updates (no new session start). -/
def guildOnly : WAction → Bool
  | WAction.pkt (Packet.guildCreate _) => true
  | WAction.pkt (Packet.guildDelete _) => true
  | WAction.envShards _ => true
  | _ => false

/-- The guild ids observed (via guild-create/delete) along a trace. -/
def actionGuildIds (acts : List WAction) : List String :=
  acts.filterMap fun a =>
    match a with
    | WAction.pkt (Packet.guildCreate g) => some g
    | WAction.pkt (Packet.guildDelete g) => some g
    | _ => none

/-- Whether an effect is a readiness announcement (a `WORKER_READY` post to
the manager). -/
def isReadyPost : Effect → Bool
  | Effect.post (OutMsg.workerReady _) => true
  | _ => false

/-- Count the readiness announcements (`WORKER_READY` posts) in an effect
list. -/
def countWorkerReady (effs : List Effect) : Nat :=
  effs.countP isReadyPost

/-! ## `latency` getter -/

/-- A JS number as observed from the `latency` getter: an actual rational,
or one of the IEEE special values division by zero can produce. -/
inductive JSNum
  | num (q : ℚ)
  | nan
  | inf
  | ninf
deriving DecidableEq

/-- JS division of two actual numbers: `0/0` is `NaN`, `±x/0` is `±Infinity`. -/
def jsDivQ (a b : ℚ) : JSNum :=
  if b = 0 then (if a = 0 then JSNum.nan else if 0 < a then JSNum.inf else JSNum.ninf)
  else JSNum.num (a / b)

/-- The `latency` getter (lines 75-81): sum of all shards' latencies divided
by the map's size, with no emptiness guard. -/
def WorkerState.latency (st : WorkerState) : JSNum :=
  jsDivQ ((st.shards.map (fun p => p.2.latency)).sum) (st.shards.length)

/-! ## Association-list lemmas -/

theorem lookupKey_setKey {κ β : Type} [DecidableEq κ] (m : List (κ × β))
    (k k2 : κ) (v : β) :
    lookupKey (setKey m k v) k2 = if k = k2 then some v else lookupKey m k2 := by
  induction m with
  | nil => simp [setKey, lookupKey]
  | cons p rest ih =>
    by_cases h : p.1 = k
    · by_cases hk : k = k2
      · simp [setKey, lookupKey, h, hk]
      · have hp : ¬ p.1 = k2 := by rw [h]; exact hk
        simp [setKey, lookupKey, h, hk, hp]
    · by_cases hp : p.1 = k2
      · have hk : ¬ k = k2 := fun hkk => h (by rw [hkk, hp])
        have hk2 : ¬ k2 = k := fun hkk => hk hkk.symm
        simp [setKey, lookupKey, h, hp, hk, hk2]
      · simp [setKey, lookupKey, h, hp, ih]

theorem lookupKey_setKey_self {κ β : Type} [DecidableEq κ] (m : List (κ × β))
    (k : κ) (v : β) : lookupKey (setKey m k v) k = some v := by
  simp [lookupKey_setKey]

theorem lookupKey_eraseKey_self {κ β : Type} [DecidableEq κ] (m : List (κ × β))
    (k : κ) : lookupKey (eraseKey m k) k = none := by
  induction m with
  | nil => rfl
  | cons p rest ih => by_cases h : p.1 = k <;> simp [eraseKey, h, lookupKey, ih]

/-! ## Claim theorems -/

/-- C4: every nonce issued into the pending-call table carries the 60 000 ms
bound and the caller-supplied message (defaulting to "Timeout"); the timeout
firing removes the entry and rejects with that message; and a response for
the nonce arriving after removal is a no-op on the router. -/
theorem c4_pending_timeout (t : List (String × PendingCall)) (n msg : String)
    (resp : Value) (st : WorkerState) :
    lookupKey (generateSendPromise t n msg) n
      = some { message := msg, timeoutMs := 60000 } ∧
    lookupKey (generateSendPromiseDefault t n) n
      = some { message := "Timeout", timeoutMs := 60000 } ∧
    (fireTimeout (generateSendPromise t n msg) n).2
      = some (POutcome.rejected msg) ∧
    lookupKey (fireTimeout (generateSendPromise t n msg) n).1 n = none ∧
    (st.promises = (fireTimeout (generateSendPromise t n msg) n).1 →
      handleManagerMessages st (ManagerMsg.evalResponseMsg n resp) = (st, [])) := by
  have h1 : lookupKey (generateSendPromise t n msg) n
      = some { message := msg, timeoutMs := 60000 } :=
    lookupKey_setKey_self t n _
  refine ⟨h1, lookupKey_setKey_self t n _, ?_, ?_, ?_⟩
  · simp [fireTimeout, h1]
  · simp [fireTimeout, h1, lookupKey_eraseKey_self]
  · intro hp
    have hnone : lookupKey st.promises n = none := by
      rw [hp]; simp [fireTimeout, h1, lookupKey_eraseKey_self]
    simp [handleManagerMessages, hnone]

theorem c4_pending_timeout_witness :
    lookupKey (fireTimeout (generateSendPromise [] "n1" "died") "n1").1 "n1" = none ∧
    handleManagerMessages
        { promises := (fireTimeout (generateSendPromise [] "n1" "died") "n1").1 }
        (ManagerMsg.evalResponseMsg "n1" Value.undef)
      = ({ promises := (fireTimeout (generateSendPromise [] "n1" "died") "n1").1 }, []) := by
  have h := c4_pending_timeout [] "n1" "died" Value.undef
    { promises := (fireTimeout (generateSendPromise [] "n1" "died") "n1").1 }
  exact ⟨h.2.2.2.1, h.2.2.2.2 rfl⟩

/-- C5: `generateNonce` never returns a key currently live in the pending
table, and a colliding candidate causes a retry with the next random draw
rather than returning the collision or failing. -/
theorem c5_nonce_fresh (large : Bool) (rands : List String)
    (t : List (String × PendingCall)) :
    (∀ n, generateNonce large rands t = some n → lookupKey t n = none) ∧
    (∀ r rest, (lookupKey t (nonceCandidate large r)).isSome = true →
      generateNonce large (r :: rest) t = generateNonce large rest t) := by
  constructor
  · induction rands with
    | nil => intro n h; simp [generateNonce] at h
    | cons r rest ih =>
      intro n h
      simp only [generateNonce] at h
      by_cases hc : (lookupKey t (nonceCandidate large r)).isSome = true
      · rw [if_pos hc] at h
        exact ih n h
      · rw [if_neg hc] at h
        obtain rfl : nonceCandidate large r = n := Option.some.inj h
        exact Option.not_isSome_iff_eq_none.mp hc
  · intro r rest h
    simp only [generateNonce]
    rw [if_pos h]

theorem c5_nonce_fresh_witness :
    lookupKey [("aa", ({ message := "Timeout", timeoutMs := 60000 } : PendingCall))] "bb"
      = none ∧
    generateNonce true ["aa", "bb"]
        [("aa", { message := "Timeout", timeoutMs := 60000 })]
      = generateNonce true ["bb"]
        [("aa", { message := "Timeout", timeoutMs := 60000 })] := by
  refine ⟨(c5_nonce_fresh true ["aa", "bb"]
      [("aa", { message := "Timeout", timeoutMs := 60000 })]).1 "bb" (by decide),
    (c5_nonce_fresh true ["aa", "bb"]
      [("aa", { message := "Timeout", timeoutMs := 60000 })]).2 "aa" ["bb"] (by decide)⟩

/-- C7: an execute-eval instruction always produces exactly one eval-response
post carrying the instruction's nonce; a thrown error is carried as the
response value and the worker state is untouched. -/
theorem c7_eval_response (st : WorkerState) (v e : Value) (nonce : String) :
    handleManagerMessages st (ManagerMsg.executeEval (EvalOutcome.ok v) nonce)
      = (st, [Effect.post (OutMsg.evalResponse v st.workerId nonce)]) ∧
    handleManagerMessages st (ManagerMsg.executeEval (EvalOutcome.threw e) nonce)
      = (st, [Effect.post (OutMsg.evalResponse e st.workerId nonce)]) :=
  ⟨rfl, rfl⟩

/-- C10: the latency getter is the arithmetic mean of the shards' latencies
when the registry is non-empty, and the unguarded division by zero yields
NaN when the registry is empty. -/
theorem c10_latency_mean (st : WorkerState) :
    (st.shards ≠ [] → st.latency
      = JSNum.num ((st.shards.map (fun p => p.2.latency)).sum
          / (st.shards.length : ℚ))) ∧
    (st.shards = [] → st.latency = JSNum.nan) := by
  constructor
  · intro h
    have hlen : ((st.shards.length : ℚ)) ≠ 0 := by
      simp [Nat.cast_eq_zero, List.length_eq_zero, h]
    simp [WorkerState.latency, jsDivQ, hlen]
  · intro h
    simp [WorkerState.latency, jsDivQ, h]

theorem c10_latency_mean_witness :
    ({ shards := [(0, { id := 0, latency := 3 }), (1, { id := 1, latency := 5 })] }
        : WorkerState).latency = JSNum.num 4 ∧
    (({} : WorkerState)).latency = JSNum.nan := by
  constructor
  · have h := (c10_latency_mean
      { shards := [(0, { id := 0, latency := 3 }), (1, { id := 1, latency := 5 })] }).1
      (by simp)
    rw [h]; norm_num
  · exact (c10_latency_mean {}).2 rfl

/-- C6: a manager instruction naming a shard id absent from the registry is
logged as fatal and dropped: no reply is posted, the whole state (shard
registry, pending-call table, readiness set) is unchanged, and subsequent
instructions are still processed. -/
theorem c6_unknown_shard (st : WorkerState) (i : Nat) (n : String)
    (pres : Option String) (rest : List ManagerMsg)
    (h : lookupKey st.shards i = none) :
    handleManagerMessages st (ManagerMsg.sendPayload i n)
      = (st, [Effect.logFatal "Worker trying send payload by non-existent shard"]) ∧
    handleManagerMessages st (ManagerMsg.allowConnect i pres)
      = (st, [Effect.logFatal "Worker trying connect non-existent shard"]) ∧
    handleManagerMessages st (ManagerMsg.shardInfoQ i n)
      = (st, [Effect.logFatal "Worker trying get non-existent shard"]) ∧
    runMsgs st (ManagerMsg.sendPayload i n :: rest)
      = ((runMsgs st rest).1,
        Effect.logFatal "Worker trying send payload by non-existent shard"
          :: (runMsgs st rest).2) ∧
    runMsgs st (ManagerMsg.allowConnect i pres :: rest)
      = ((runMsgs st rest).1,
        Effect.logFatal "Worker trying connect non-existent shard"
          :: (runMsgs st rest).2) ∧
    runMsgs st (ManagerMsg.shardInfoQ i n :: rest)
      = ((runMsgs st rest).1,
        Effect.logFatal "Worker trying get non-existent shard"
          :: (runMsgs st rest).2) := by
  have h1 : handleManagerMessages st (ManagerMsg.sendPayload i n)
      = (st, [Effect.logFatal "Worker trying send payload by non-existent shard"]) := by
    simp [handleManagerMessages, h]
  have h2 : handleManagerMessages st (ManagerMsg.allowConnect i pres)
      = (st, [Effect.logFatal "Worker trying connect non-existent shard"]) := by
    simp [handleManagerMessages, h]
  have h3 : handleManagerMessages st (ManagerMsg.shardInfoQ i n)
      = (st, [Effect.logFatal "Worker trying get non-existent shard"]) := by
    simp [handleManagerMessages, h]
  refine ⟨h1, h2, h3, ?_, ?_, ?_⟩ <;> simp [runMsgs, h1, h2, h3]

theorem c6_unknown_shard_witness :
    handleManagerMessages {} (ManagerMsg.allowConnect 7 none)
      = ({}, [Effect.logFatal "Worker trying connect non-existent shard"]) ∧
    runMsgs {} (ManagerMsg.sendPayload 7 "q" :: [ManagerMsg.botReady])
      = ((runMsgs {} [ManagerMsg.botReady]).1,
        Effect.logFatal "Worker trying send payload by non-existent shard"
          :: (runMsgs {} [ManagerMsg.botReady]).2) := by
  have h := c6_unknown_shard {} 7 "q" none [ManagerMsg.botReady] rfl
  exact ⟨h.2.1, h.2.2.2.1⟩

/-- C8: the shard-info reply for a registered shard and every per-shard entry
of the worker-info reply carry `open`, `shardId`, `latency`, `resumable`
equal to the live Shard object's isOpen, id, latency and resumable values,
tagged with the original query's nonce. -/
theorem c8_shard_info (st : WorkerState) (i : Nat) (sh : Shard) (n : String)
    (h : lookupKey st.shards i = some sh) :
    handleManagerMessages st (ManagerMsg.shardInfoQ i n)
      = (st, [Effect.post (OutMsg.shardInfoMsg
          { isOpen := sh.isOpen, shardId := sh.id, latency := sh.latency,
            resumable := sh.resumable } n st.workerId)]) ∧
    handleManagerMessages st (ManagerMsg.workerInfoQ n)
      = (st, [Effect.post (OutMsg.workerInfo
          (st.shards.map (fun p =>
            { isOpen := p.2.isOpen, shardId := p.2.id, latency := p.2.latency,
              resumable := p.2.resumable })) st.workerId n)]) := by
  constructor
  · simp [handleManagerMessages, h, generateShardInfo]
  · simp [handleManagerMessages, generateShardInfo]

theorem c8_shard_info_witness :
    handleManagerMessages
        { shards := [(2, { id := 2, latency := 7, isOpen := true, resumable := true })], workerId := 5 }
        (ManagerMsg.shardInfoQ 2 "nn")
      = ({ shards := [(2, { id := 2, latency := 7, isOpen := true, resumable := true })], workerId := 5 },
        [Effect.post (OutMsg.shardInfoMsg
          { isOpen := true, shardId := 2, latency := 7, resumable := true } "nn" 5)]) := by
  have h := c8_shard_info
    { shards := [(2, { id := 2, latency := 7, isOpen := true, resumable := true })], workerId := 5 }
    2 { id := 2, latency := 7, isOpen := true, resumable := true } "nn" rfl
  exact h.1

/-! ## SPAWN_SHARDS machinery -/

/-- The shard-registry half of one `SPAWN_SHARDS` loop iteration: create the
`Shard` object when the id is absent. -/
def ensureShard (sh : List (Nat × Shard)) (id : Nat) : List (Nat × Shard) :=
  if (lookupKey sh id).isSome then sh else setKey sh id (mkShard id)

theorem spawnStep_decompose (wid : Nat) (ids : List Nat) :
    ∀ (sh : List (Nat × Shard)) (effs : List Effect),
    ids.foldl (spawnStep wid) (sh, effs)
      = (ids.foldl ensureShard sh,
        effs ++ ids.map (fun id => Effect.post (OutMsg.connectQueue id wid))) := by
  induction ids with
  | nil => intro sh effs; simp
  | cons id rest ih =>
    intro sh effs
    simp only [List.foldl_cons, List.map_cons]
    rw [show spawnStep wid (sh, effs) id
        = (ensureShard sh id, effs ++ [Effect.post (OutMsg.connectQueue id wid)]) from rfl]
    rw [ih]
    simp

theorem lookupKey_ensureShard (sh : List (Nat × Shard)) (id k : Nat) :
    lookupKey (ensureShard sh id) k
      = if k = id then some ((lookupKey sh k).getD (mkShard k))
        else lookupKey sh k := by
  unfold ensureShard
  by_cases h : (lookupKey sh id).isSome = true
  · rw [if_pos h]
    by_cases hk : k = id
    · subst hk
      obtain ⟨v, hv⟩ := Option.isSome_iff_exists.mp h
      simp [hv]
    · simp [hk]
  · rw [if_neg h]
    rw [lookupKey_setKey]
    by_cases hk : k = id
    · subst hk
      have hn : lookupKey sh k = none := Option.not_isSome_iff_eq_none.mp h
      simp [hn]
    · have hk2 : ¬ id = k := fun hh => hk hh.symm
      simp [hk, hk2]

theorem lookupKey_foldl_ensureShard (ids : List Nat) :
    ∀ (sh : List (Nat × Shard)) (k : Nat),
    lookupKey (ids.foldl ensureShard sh) k
      = if k ∈ ids then some ((lookupKey sh k).getD (mkShard k))
        else lookupKey sh k := by
  induction ids with
  | nil => intro sh k; simp
  | cons id rest ih =>
    intro sh k
    simp only [List.foldl_cons]
    rw [ih, lookupKey_ensureShard]
    by_cases hk : k = id
    · subst hk
      by_cases hmem : k ∈ rest <;> simp [hmem]
    · by_cases hmem : k ∈ rest <;> simp [hk, hmem, List.mem_cons]

theorem foldl_ensureShard_of_present (ids : List Nat) :
    ∀ sh, (∀ id ∈ ids, (lookupKey sh id).isSome = true) →
      ids.foldl ensureShard sh = sh := by
  induction ids with
  | nil => intro sh _; rfl
  | cons id rest ih =>
    intro sh h
    simp only [List.foldl_cons]
    have h1 : ensureShard sh id = sh := by
      unfold ensureShard; rw [if_pos (h id (by simp))]
    rw [h1]
    exact ih sh (fun i hi => h i (by simp [hi]))

theorem mem_keys_setKey {κ β : Type} [DecidableEq κ] (m : List (κ × β))
    (k : κ) (v : β) (x : κ) :
    x ∈ (setKey m k v).map Prod.fst → x = k ∨ x ∈ m.map Prod.fst := by
  induction m with
  | nil => simp [setKey]
  | cons p rest ih =>
    by_cases h : p.1 = k
    · simp only [setKey, h, if_pos, List.map_cons, List.mem_cons]
      rintro (hx | hx)
      · exact Or.inl hx
      · exact Or.inr (Or.inr hx)
    · simp only [setKey, h, if_neg, List.map_cons, List.mem_cons,
        not_false_eq_true]
      rintro (hx | hx)
      · exact Or.inr (Or.inl hx)
      · rcases ih hx with h1 | h1
        · exact Or.inl h1
        · exact Or.inr (Or.inr h1)

theorem keys_nodup_setKey {κ β : Type} [DecidableEq κ] (m : List (κ × β))
    (k : κ) (v : β) (h : (m.map Prod.fst).Nodup) :
    ((setKey m k v).map Prod.fst).Nodup := by
  induction m with
  | nil => simp [setKey]
  | cons p rest ih =>
    simp only [List.map_cons, List.nodup_cons] at h
    by_cases hp : p.1 = k
    · simp only [setKey, hp, if_pos, List.map_cons, List.nodup_cons]
      exact ⟨hp ▸ h.1, h.2⟩
    · simp only [setKey, hp, if_neg, not_false_eq_true, List.map_cons,
        List.nodup_cons]
      refine ⟨fun hmem => ?_, ih h.2⟩
      rcases mem_keys_setKey rest k v p.1 hmem with h1 | h1
      · exact hp h1
      · exact h.1 h1

theorem keys_nodup_ensureShard (sh : List (Nat × Shard)) (id : Nat)
    (h : (sh.map Prod.fst).Nodup) : ((ensureShard sh id).map Prod.fst).Nodup := by
  unfold ensureShard
  by_cases hp : (lookupKey sh id).isSome = true
  · rwa [if_pos hp]
  · rw [if_neg hp]
    exact keys_nodup_setKey sh id (mkShard id) h

theorem keys_nodup_foldl_ensureShard (ids : List Nat) :
    ∀ sh, (sh.map Prod.fst).Nodup →
      ((ids.foldl ensureShard sh).map Prod.fst).Nodup := by
  induction ids with
  | nil => intro sh h; exact h
  | cons id rest ih =>
    intro sh h
    simp only [List.foldl_cons]
    exact ih _ (keys_nodup_ensureShard sh id h)

theorem spawn_shards_eq (st : WorkerState) :
    handleManagerMessages st ManagerMsg.spawnShards
      = ({ st with shards := st.assignedShards.foldl ensureShard st.shards },
        st.assignedShards.map
          (fun id => Effect.post (OutMsg.connectQueue id st.workerId))) := by
  simp [handleManagerMessages, spawnStep_decompose]

/-- C9: spawn-shards creates a Shard object only for assigned ids not already
registered (existing entries are kept, key uniqueness is preserved, and a
second spawn-shards leaves the registry unchanged), while a connect-queue
request is posted for every assigned id on every spawn-shards instruction. -/
theorem c9_spawn_idempotent (st : WorkerState) :
    (handleManagerMessages st ManagerMsg.spawnShards).2
      = st.assignedShards.map
          (fun id => Effect.post (OutMsg.connectQueue id st.workerId)) ∧
    (∀ k, lookupKey (handleManagerMessages st ManagerMsg.spawnShards).1.shards k
      = if k ∈ st.assignedShards
        then some ((lookupKey st.shards k).getD (mkShard k))
        else lookupKey st.shards k) ∧
    (handleManagerMessages (handleManagerMessages st ManagerMsg.spawnShards).1
        ManagerMsg.spawnShards).1.shards
      = (handleManagerMessages st ManagerMsg.spawnShards).1.shards ∧
    (handleManagerMessages (handleManagerMessages st ManagerMsg.spawnShards).1
        ManagerMsg.spawnShards).2
      = st.assignedShards.map
          (fun id => Effect.post (OutMsg.connectQueue id st.workerId)) ∧
    ((st.shards.map Prod.fst).Nodup →
      ((handleManagerMessages st ManagerMsg.spawnShards).1.shards.map Prod.fst).Nodup) := by
  have hpresent : ∀ id ∈ st.assignedShards,
      (lookupKey (st.assignedShards.foldl ensureShard st.shards) id).isSome = true := by
    intro id hid
    rw [lookupKey_foldl_ensureShard]
    simp [hid]
  refine ⟨?_, ?_, ?_, ?_, ?_⟩
  · simp only [spawn_shards_eq]
  · intro k
    simp only [spawn_shards_eq]
    exact lookupKey_foldl_ensureShard st.assignedShards st.shards k
  · simp only [spawn_shards_eq]
    exact foldl_ensureShard_of_present st.assignedShards _ hpresent
  · simp only [spawn_shards_eq]
  · intro h
    simp only [spawn_shards_eq]
    exact keys_nodup_foldl_ensureShard st.assignedShards st.shards h

theorem c9_spawn_idempotent_witness :
    (((handleManagerMessages { assignedShards := [0, 1], workerId := 3 }
        ManagerMsg.spawnShards).1.shards.map Prod.fst).Nodup) ∧
    (handleManagerMessages { assignedShards := [0, 1], workerId := 3 }
        ManagerMsg.spawnShards).2
      = [Effect.post (OutMsg.connectQueue 0 3), Effect.post (OutMsg.connectQueue 1 3)] := by
  refine ⟨(c9_spawn_idempotent
    { assignedShards := [0, 1], workerId := 3 }).2.2.2.2 (by decide), ?_⟩
  have h := (c9_spawn_idempotent { assignedShards := [0, 1], workerId := 3 }).1
  simpa using h

/-! ## Readiness-set lemmas -/

theorem countWorkerReady_append (l1 l2 : List Effect) :
    countWorkerReady (l1 ++ l2) = countWorkerReady l1 + countWorkerReady l2 :=
  List.countP_append isReadyPost l1 l2

theorem allShardsLive_update (st : WorkerState) (hg : Option (List String))
    (b ap : Option String) :
    allShardsLive { st with handleGuilds := hg, botId := b, applicationId := ap }
      = allShardsLive st := rfl

theorem delSet_eq_nil_mem {s : List String} {x : String} (h : delSet s x = [])
    {y : String} (hy : y ∈ s) : y = x := by
  have h2 := List.filter_eq_nil_iff.mp h y hy
  simp at h2
  exact h2

/-- C2 counterexample: the claim fails on the code in two ways.  At
construction the ReadinessSet is present and empty (`__handleGuilds` is
initialised to `new Set()`), and a guild-create that empties the set while a
shard lacks a live session deletes the set without any readiness
announcement. -/
theorem c2_readiness_set_cex :
    ({} : WorkerState).handleGuilds = some [] ∧
    (onPacket { handleGuilds := some ["A"], shards := [(0, { id := 0 })] }
        (Packet.guildCreate "A")).1.handleGuilds = none ∧
    countWorkerReady
      (onPacket { handleGuilds := some ["A"], shards := [(0, { id := 0 })] }
        (Packet.guildCreate "A")).2 = 0 :=
  ⟨rfl, rfl, rfl⟩

/-- C2 amended: the ReadinessSet starts present and empty at construction;
once a guild-create/delete removes the last pending id the set is
immediately deleted, with the readiness announcement accompanying the
deletion exactly when every owned shard reports a live session id (otherwise
the set is deleted silently); a removal that leaves the set non-empty keeps
it present and announces nothing. -/
theorem c2_readiness_set_amended (st : WorkerState) (hg : List String)
    (gid : String) (h : st.handleGuilds = some hg) (hmem : gid ∈ hg) :
    (delSet hg gid = [] →
      (onPacket st (Packet.guildCreate gid)).1.handleGuilds = none ∧
      countWorkerReady (onPacket st (Packet.guildCreate gid)).2
        = (if allShardsLive st then 1 else 0)) ∧
    (delSet hg gid ≠ [] →
      (onPacket st (Packet.guildCreate gid)).1.handleGuilds = some (delSet hg gid) ∧
      countWorkerReady (onPacket st (Packet.guildCreate gid)).2 = 0) := by
  constructor
  · intro hdel
    by_cases hlive : allShardsLive st
    · constructor <;>
        simp [onPacket, handleGuildPacket, h, hmem, hdel, hlive,
          countWorkerReady, isReadyPost]
    · constructor <;>
        simp [onPacket, handleGuildPacket, h, hmem, hdel, hlive,
          countWorkerReady, isReadyPost]
  · intro hdel
    have hie : (delSet hg gid).isEmpty = false := by
      cases hd : delSet hg gid
      · exact absurd hd hdel
      · rfl
    constructor <;>
      simp [onPacket, handleGuildPacket, h, hmem, hie,
        countWorkerReady, isReadyPost]

theorem c2_readiness_set_amended_witness :
    ((onPacket { handleGuilds := some ["B"] } (Packet.guildCreate "B")).1.handleGuilds
        = none ∧
      countWorkerReady (onPacket { handleGuilds := some ["B"] }
          (Packet.guildCreate "B")).2
        = (if allShardsLive { handleGuilds := some ["B"] } then 1 else 0)) ∧
    ((onPacket { handleGuilds := some ["A", "B"] } (Packet.guildCreate "A")).1.handleGuilds
        = some (delSet ["A", "B"] "A") ∧
      countWorkerReady (onPacket { handleGuilds := some ["A", "B"] }
          (Packet.guildCreate "A")).2 = 0) :=
  ⟨(c2_readiness_set_amended { handleGuilds := some ["B"] } ["B"] "B" rfl
      (by decide)).1 (by decide),
    (c2_readiness_set_amended { handleGuilds := some ["A", "B"] } ["A", "B"] "A" rfl
      (by decide)).2 (by decide)⟩

/-- C3 counterexample: intents without the guild bit (default 0), one shard
with a live session and one without, and a READY packet listing guild "A":
the READY handling emits no readiness announcement at all, contradicting the
claimed immediate announcement. -/
theorem c3_no_intent_cex :
    countWorkerReady
      (onPacket
        { shards := [(0, { id := 0, data := { session_id := some "s" } }), (1, { id := 1 })] }
        (Packet.ready ["A"] "u" "app")).2 = 0 :=
  rfl

/-- C3 amended: with the guild-events intent bit absent, READY handling
never opens a settling window (the ReadinessSet is discarded before the
handler returns) and announces WORKER_READY during READY handling if and
only if every owned shard reports a live session id at that moment. -/
theorem c3_no_intent_amended (st : WorkerState) (gs : List String)
    (u ap : String) (h : guildsIntent st.intents = false) :
    (onPacket st (Packet.ready gs u ap)).1.handleGuilds = none ∧
    countWorkerReady (onPacket st (Packet.ready gs u ap)).2
      = (if allShardsLive st then 1 else 0) := by
  by_cases hlive : allShardsLive st
  · constructor <;>
      simp [onPacket, handleReadyPacket, h, allShardsLive_update, hlive,
        countWorkerReady, isReadyPost]
  · constructor <;>
      simp [onPacket, handleReadyPacket, h, allShardsLive_update, hlive,
        countWorkerReady, isReadyPost]

theorem c3_no_intent_amended_witness :
    (onPacket { intents := 8 } (Packet.ready ["A"] "u" "ap")).1.handleGuilds = none ∧
    countWorkerReady (onPacket { intents := 8 } (Packet.ready ["A"] "u" "ap")).2
      = (if allShardsLive { intents := 8 } then 1 else 0) :=
  c3_no_intent_amended { intents := 8 } ["A"] "u" "ap" (by decide)

/-! ## Settling-window trace lemmas -/

theorem handleGuildPacket_no_set {st : WorkerState} (h : st.handleGuilds = none)
    (gid ename : String) :
    handleGuildPacket st gid ename = (st, [Effect.executeEvent ename]) := by
  simp [handleGuildPacket, h]

theorem stepAction_no_set {st : WorkerState} {a : WAction}
    (hga : guildOnly a = true) (h : st.handleGuilds = none) :
    (stepAction st a).1.handleGuilds = none ∧
    countWorkerReady (stepAction st a).2 = 0 := by
  cases a with
  | envShards sh => exact ⟨h, rfl⟩
  | pkt p =>
    cases p with
    | guildCreate g =>
      constructor <;>
        simp [stepAction, onPacket, handleGuildPacket, h, countWorkerReady, isReadyPost]
    | guildDelete g =>
      constructor <;>
        simp [stepAction, onPacket, handleGuildPacket, h, countWorkerReady, isReadyPost]
    | ready gs u ap => simp [guildOnly] at hga
    | guildMemberUpdate b => simp [guildOnly] at hga
    | presenceUpdate b => simp [guildOnly] at hga
    | interactionCreate => simp [guildOnly] at hga
    | messageCreate => simp [guildOnly] at hga
    | other n => simp [guildOnly] at hga

theorem runActions_no_set {acts : List WAction}
    (hga : ∀ a ∈ acts, guildOnly a = true) :
    ∀ {st : WorkerState}, st.handleGuilds = none →
      (runActions st acts).1.handleGuilds = none ∧
      countWorkerReady (runActions st acts).2 = 0 := by
  induction acts with
  | nil => intro st h; exact ⟨h, rfl⟩
  | cons a rest ih =>
    intro st h
    have hstep := stepAction_no_set (hga a (by simp)) h
    have hrest := ih (fun x hx => hga x (by simp [hx])) hstep.1
    refine ⟨hrest.1, ?_⟩
    show countWorkerReady
      ((stepAction st a).2 ++ (runActions (stepAction st a).1 rest).2) = 0
    rw [countWorkerReady_append, hstep.2, hrest.2]

theorem handleGuildPacket_emit {st : WorkerState} {gid ename : String}
    (h : 0 < countWorkerReady (handleGuildPacket st gid ename).2) :
    allShardsLive st = true ∧
    (handleGuildPacket st gid ename).1.handleGuilds = none ∧
    (handleGuildPacket st gid ename).2
      = [Effect.cachePacket, Effect.post (OutMsg.workerReady st.workerId),
        Effect.runEvent "WORKER_READY"] ∧
    ∃ hgs, st.handleGuilds = some hgs ∧ gid ∈ hgs ∧ delSet hgs gid = [] := by
  cases hh : st.handleGuilds with
  | none =>
    rw [handleGuildPacket_no_set hh] at h
    simp [countWorkerReady, isReadyPost] at h
  | some hgs =>
    by_cases hin : gid ∈ hgs
    · by_cases hc : ((delSet hgs gid).isEmpty && allShardsLive st) = true
      · obtain ⟨hie, hlive⟩ :
            (delSet hgs gid).isEmpty = true ∧ allShardsLive st = true := by
          simpa using hc
        have hdel : delSet hgs gid = [] := List.isEmpty_iff.mp hie
        refine ⟨hlive, ?_, ?_, hgs, rfl, hin, hdel⟩ <;>
          simp [handleGuildPacket, hh, hin, hc]
      · exfalso
        have h0 : countWorkerReady (handleGuildPacket st gid ename).2 = 0 := by
          simp [handleGuildPacket, hh, hin, hc, countWorkerReady, isReadyPost]
        omega
    · exfalso
      have h0 : countWorkerReady (handleGuildPacket st gid ename).2 = 0 := by
        simp [handleGuildPacket, hh, hin, countWorkerReady, isReadyPost]
      omega

theorem stepAction_emit {st : WorkerState} {a : WAction}
    (hga : guildOnly a = true)
    (h : 0 < countWorkerReady (stepAction st a).2) :
    allShardsLive st = true ∧
    (stepAction st a).1.handleGuilds = none ∧
    (stepAction st a).2 = [Effect.runEvent "RAW", Effect.cachePacket,
      Effect.post (OutMsg.workerReady st.workerId), Effect.runEvent "WORKER_READY"] ∧
    ∃ gid hgs, st.handleGuilds = some hgs ∧ gid ∈ hgs ∧ delSet hgs gid = [] ∧
      gid ∈ actionGuildIds [a] := by
  cases a with
  | envShards sh => simp [stepAction, countWorkerReady] at h
  | pkt p =>
    cases p with
    | guildCreate g =>
      have h2 : 0 < countWorkerReady (handleGuildPacket st g "GUILD_CREATE").2 := by
        rw [show (stepAction st (WAction.pkt (Packet.guildCreate g))).2
            = [Effect.runEvent "RAW"] ++ (handleGuildPacket st g "GUILD_CREATE").2
            from rfl, countWorkerReady_append] at h
        simpa [countWorkerReady, isReadyPost] using h
      obtain ⟨hlive, hnone, heffs, hgs, hh, hin, hdel⟩ := handleGuildPacket_emit h2
      refine ⟨hlive, hnone, ?_, g, hgs, hh, hin, hdel, by simp [actionGuildIds]⟩
      rw [show (stepAction st (WAction.pkt (Packet.guildCreate g))).2
          = [Effect.runEvent "RAW"] ++ (handleGuildPacket st g "GUILD_CREATE").2
          from rfl, heffs]
      rfl
    | guildDelete g =>
      have h2 : 0 < countWorkerReady (handleGuildPacket st g "GUILD_DELETE").2 := by
        rw [show (stepAction st (WAction.pkt (Packet.guildDelete g))).2
            = [Effect.runEvent "RAW"] ++ (handleGuildPacket st g "GUILD_DELETE").2
            from rfl, countWorkerReady_append] at h
        simpa [countWorkerReady, isReadyPost] using h
      obtain ⟨hlive, hnone, heffs, hgs, hh, hin, hdel⟩ := handleGuildPacket_emit h2
      refine ⟨hlive, hnone, ?_, g, hgs, hh, hin, hdel, by simp [actionGuildIds]⟩
      rw [show (stepAction st (WAction.pkt (Packet.guildDelete g))).2
          = [Effect.runEvent "RAW"] ++ (handleGuildPacket st g "GUILD_DELETE").2
          from rfl, heffs]
      rfl
    | ready gs u ap => simp [guildOnly] at hga
    | guildMemberUpdate b => simp [guildOnly] at hga
    | presenceUpdate b => simp [guildOnly] at hga
    | interactionCreate => simp [guildOnly] at hga
    | messageCreate => simp [guildOnly] at hga
    | other n => simp [guildOnly] at hga

theorem handleGuildPacket_pending_mem {st : WorkerState} {gid ename g : String}
    {cur : List String} (h : st.handleGuilds = some cur) (hmem : g ∈ cur)
    (hne : ¬ g = gid) :
    ∃ cur2, (handleGuildPacket st gid ename).1.handleGuilds = some cur2 ∧ g ∈ cur2 := by
  have hmem2 : g ∈ delSet cur gid := List.mem_filter.mpr ⟨hmem, by simp [hne]⟩
  have hnil : delSet cur gid ≠ [] := fun hn => by rw [hn] at hmem2; simp at hmem2
  have hie : (delSet cur gid).isEmpty = false := by
    cases hd : delSet cur gid
    · exact absurd hd hnil
    · rfl
  by_cases hin : gid ∈ cur
  · exact ⟨delSet cur gid, by simp [handleGuildPacket, h, hin, hie], hmem2⟩
  · exact ⟨cur, by simp [handleGuildPacket, h, hin], hmem⟩

theorem stepAction_pending_mem {st : WorkerState} {a : WAction}
    (hga : guildOnly a = true) {g : String} {cur : List String}
    (h : st.handleGuilds = some cur) (hmem : g ∈ cur) :
    (∃ cur2, (stepAction st a).1.handleGuilds = some cur2 ∧ g ∈ cur2) ∨
    g ∈ actionGuildIds [a] := by
  cases a with
  | envShards sh => exact Or.inl ⟨cur, h, hmem⟩
  | pkt p =>
    cases p with
    | guildCreate gid =>
      by_cases hne : g = gid
      · exact Or.inr (by simp [actionGuildIds, hne])
      · exact Or.inl (handleGuildPacket_pending_mem h hmem hne)
    | guildDelete gid =>
      by_cases hne : g = gid
      · exact Or.inr (by simp [actionGuildIds, hne])
      · exact Or.inl (handleGuildPacket_pending_mem h hmem hne)
    | ready gs u ap => simp [guildOnly] at hga
    | guildMemberUpdate b => simp [guildOnly] at hga
    | presenceUpdate b => simp [guildOnly] at hga
    | interactionCreate => simp [guildOnly] at hga
    | messageCreate => simp [guildOnly] at hga
    | other n => simp [guildOnly] at hga

theorem actionGuildIds_append (l1 l2 : List WAction) :
    actionGuildIds (l1 ++ l2) = actionGuildIds l1 ++ actionGuildIds l2 :=
  List.filterMap_append l1 l2 _

theorem runActions_pending_mem (acts : List WAction)
    (hga : ∀ a ∈ acts, guildOnly a = true) :
    ∀ (st : WorkerState) (g : String) (cur : List String),
      st.handleGuilds = some cur → g ∈ cur →
      (∃ cur2, (runActions st acts).1.handleGuilds = some cur2 ∧ g ∈ cur2) ∨
      g ∈ actionGuildIds acts := by
  induction acts with
  | nil => intro st g cur h hmem; exact Or.inl ⟨cur, h, hmem⟩
  | cons a rest ih =>
    intro st g cur h hmem
    have hsplit : actionGuildIds (a :: rest)
        = actionGuildIds [a] ++ actionGuildIds rest :=
      actionGuildIds_append [a] rest
    rcases stepAction_pending_mem (hga a (by simp)) h hmem with ⟨cur2, h2, hmem2⟩ | hobs
    · rcases ih (fun x hx => hga x (by simp [hx])) (stepAction st a).1 g cur2 h2 hmem2
        with h3 | h3
      · exact Or.inl h3
      · exact Or.inr (by rw [hsplit]; exact List.mem_append_right _ h3)
    · exact Or.inr (by rw [hsplit]; exact List.mem_append_left _ hobs)

theorem runActions_atMostOnce (acts : List WAction)
    (hga : ∀ a ∈ acts, guildOnly a = true) :
    ∀ st : WorkerState, countWorkerReady (runActions st acts).2 ≤ 1 := by
  induction acts with
  | nil => intro st; simp [runActions, countWorkerReady]
  | cons a rest ih =>
    intro st
    have hga1 : guildOnly a = true := hga a (by simp)
    have hgar : ∀ x ∈ rest, guildOnly x = true := fun x hx => hga x (by simp [hx])
    show countWorkerReady
      ((stepAction st a).2 ++ (runActions (stepAction st a).1 rest).2) ≤ 1
    rw [countWorkerReady_append]
    by_cases hemit : 0 < countWorkerReady (stepAction st a).2
    · obtain ⟨hlive, hnone, heffs, _⟩ := stepAction_emit hga1 hemit
      rw [heffs, (runActions_no_set hgar hnone).2]
      simp [countWorkerReady, isReadyPost]
    · have h0 : countWorkerReady (stepAction st a).2 = 0 :=
        Nat.le_zero.mp (Nat.not_lt.mp hemit)
      rw [h0]
      simpa using ih hgar (stepAction st a).1

theorem runActions_append (st : WorkerState) (l1 l2 : List WAction) :
    runActions st (l1 ++ l2)
      = ((runActions (runActions st l1).1 l2).1,
        (runActions st l1).2 ++ (runActions (runActions st l1).1 l2).2) := by
  induction l1 generalizing st with
  | nil => simp [runActions]
  | cons a rest ih =>
    simp only [List.cons_append, runActions, List.append_eq]
    rw [ih]
    simp [List.append_assoc]

/-- C1: inside a settling window (a state whose ReadinessSet is the pending
guild list), over any trace of guild-create/delete packets and environment
shard updates, the readiness announcement is posted at most once; and any
step that posts it does so only when every guild id of the window's
ReadinessSet has been observed by some guild-create/delete up to and
including that step, and every owned shard reports a live session id at that
moment; the announcing step posts WORKER_READY to the manager and emits the
local WORKER_READY event together. -/
theorem c1_settling_window (st : WorkerState) (hgs : List String)
    (h : st.handleGuilds = some hgs) (acts : List WAction)
    (hga : ∀ a ∈ acts, guildOnly a = true) :
    countWorkerReady (runActions st acts).2 ≤ 1 ∧
    (∀ l1 a l2, acts = l1 ++ a :: l2 →
      0 < countWorkerReady (stepAction (runActions st l1).1 a).2 →
      allShardsLive (runActions st l1).1 = true ∧
      (∀ g ∈ hgs, g ∈ actionGuildIds (l1 ++ [a])) ∧
      (stepAction (runActions st l1).1 a).2
        = [Effect.runEvent "RAW", Effect.cachePacket,
          Effect.post (OutMsg.workerReady (runActions st l1).1.workerId),
          Effect.runEvent "WORKER_READY"]) := by
  refine ⟨runActions_atMostOnce acts hga st, ?_⟩
  intro l1 a l2 hsplit hemit
  have hga1 : ∀ x ∈ l1, guildOnly x = true := fun x hx =>
    hga x (by simp [hsplit, hx])
  have hgaa : guildOnly a = true := hga a (by simp [hsplit])
  obtain ⟨hlive, hnone, heffs, gid, hgs2, hsome2, hin2, hdel2, hobs2⟩ :=
    stepAction_emit hgaa hemit
  refine ⟨hlive, ?_, heffs⟩
  intro g hgmem
  have hids : actionGuildIds (l1 ++ [a])
      = actionGuildIds l1 ++ actionGuildIds [a] := actionGuildIds_append l1 [a]
  rcases runActions_pending_mem l1 hga1 st g hgs h hgmem with ⟨cur2, hc2, hm2⟩ | hobs
  · have hcur : cur2 = hgs2 := Option.some.inj (hc2.symm.trans hsome2)
    have hg2 : g = gid := delSet_eq_nil_mem hdel2 (hcur ▸ hm2)
    rw [hids]
    exact List.mem_append_right _ (hg2 ▸ hobs2)
  · rw [hids]
    exact List.mem_append_left _ hobs

theorem c1_settling_window_witness :
    countWorkerReady
      (runActions { handleGuilds := some ["A"] }
        [WAction.pkt (Packet.guildCreate "A"),
          WAction.pkt (Packet.guildCreate "A")]).2 ≤ 1 :=
  (c1_settling_window { handleGuilds := some ["A"] } ["A"] rfl
    [WAction.pkt (Packet.guildCreate "A"), WAction.pkt (Packet.guildCreate "A")]
    (by decide)).1
